import Mathlib

/-!
Shallow embedding of the mod-bisection scripts of this repository
(`scripts/binary-search.js`, its earlier inline variant, the automated
bench variant, and `scripts/_common/mods.js`).

Modelling conventions:
* A mod is identified by its name (a `String`); the controller state is a
  pair of finite sets of names (`enabledMods`, `fineMods`).
* The filesystem is abstracted as the finite set of mod names whose
  directory currently contains the `.lovelyignore` sentinel file.  Each mod
  is assumed to live in its own directory (one metadata file per mod
  directory), so keying the sentinel by mod name is faithful.
* The pinned lists `ALWAYS_FINE_MODS` / `ALWAYS_DISABLED_MODS` are passed
  as explicit parameters because the three script variants configure them
  differently, and because the later interactive variant mutates
  `ALWAYS_FINE_MODS` at session start by merging the checkpoint file.
* `shuffleArray` (Fisher-Yates) is modelled by quantifying over the
  shuffled list: the JS function returns some permutation of its input, so
  theorems take the already-shuffled list as a parameter.
* Header parsing (`parseModHeader`) is modelled over `List Char`, which
  matches JavaScript string semantics (`split`, `slice`, `trim`) on the
  ASCII inputs involved character for character.
-/

/-- `ALWAYS_FINE_MODS` of the earlier inline interactive variant
(binary-search.js, first script, line 9). -/
def ALWAYS_FINE_MODS_V1 : List String := ["Talisman", "ExtraCredit"]

/-- `ALWAYS_DISABLED_MODS` of the earlier inline interactive variant
(binary-search.js, first script, line 12). -/
def ALWAYS_DISABLED_MODS_V1 : List String := ["Betmma Abilities", "Betmma Spells"]

/-- Static initial value of `ALWAYS_FINE_MODS` in the refactored interactive
variant (binary-search.js line 251); it is reassigned at session start by
merging the loaded checkpoint (line 790). -/
def ALWAYS_FINE_MODS_STATIC : List String := ["ExtraCredit"]

/-- `ALWAYS_DISABLED_MODS` of the refactored interactive variant
(binary-search.js lines 254-287). -/
def ALWAYS_DISABLED_MODS : List String :=
  ["Betmma Abilities", "Betmma Spells", "Mika's Mod Collection", "Reverie",
   "Pokermon", "Balatrobot", "Talisman", "balaum", "Perk-O-lating",
   "Familiar", "Gemstones", "Ceres", "Pampa Joker Pack", "Maximus",
   "D6 Jokers", "Ortalab", "Aikoyori's Shenanigans", "Balatro Jokers PLUS",
   "Faster Stakes Unlock", "no laughing matter", "Tetrapak", "Item Remover",
   "Fusion Jokers", "Balatro+", "Tesseract", "Drafting", "JankJonklersMod",
   "Mossed", "High Card Mod", "Emporium", "Seals On Everything", "JokerHub"]

/-- Static initial value of `ALWAYS_FINE_MODS` in the automated bench
variant (bench script line 54); also merged with the checkpoint. -/
def ALWAYS_FINE_MODS_BENCH : List String := ["Talisman", "ExtraCredit", "Balatrobot"]

/-- `ALWAYS_DISABLED_MODS` of the automated bench variant (lines 57-63). -/
def ALWAYS_DISABLED_MODS_BENCH : List String :=
  ["Betmma Abilities", "Betmma Spells", "Mika's Mod Collection", "Reverie", "Pokermon"]

/-- `ALWAYS_FINE_MODS = [...new Set([...ALWAYS_FINE_MODS, ...loadedFineMods])]`
(binary-search.js line 790, bench line 710).  The JS expression keeps the
first occurrence of each name; `List.dedup` keeps a different occurrence,
but every use below is membership-based, and the two agree on membership. -/
def mergeAlwaysFine (staticFine loadedFineMods : List String) : List String :=
  (staticFine ++ loadedFineMods).dedup

/-- Error raised by `Deno.remove` on a missing file (`errors.NotFound`). -/
inductive FsError where
  | notFound
deriving DecidableEq

/-- `writeLovelyIgnore` (binary-search.js lines 370-377): writes the
`.lovelyignore` sentinel into each listed mod's directory.  On the
set-of-disabled-mods abstraction, writing the sentinel inserts the name. -/
def writeLovelyIgnore (modList : List String) (fs : Finset String) : Finset String :=
  modList.foldl (fun acc m => insert m acc) fs

/-- One `Deno.remove` call on a mod's sentinel path: fails with `NotFound`
when the sentinel file is absent. -/
def removeSentinel (fs : Finset String) (m : String) : Except FsError (Finset String) :=
  if m ∈ fs then Except.ok (fs.erase m) else Except.error FsError.notFound

/-- `removeLovelyIgnore` (binary-search.js lines 388-402): removes each
listed mod's sentinel, catching the error; a `NotFound` error is swallowed
silently and any other error is only logged, so the loop always continues
with the filesystem state the failed call left behind. -/
def removeLovelyIgnore (modList : List String) (fs : Finset String) : Finset String :=
  modList.foldl
    (fun acc m =>
      match removeSentinel acc m with
      | Except.ok acc2 => acc2
      | Except.error _ => acc)
    fs

/-- `isModDisabled` (binary-search.js lines 414-419): existence check of the
sentinel file in the mod's directory. -/
def isModDisabled (m : String) (fs : Finset String) : Bool :=
  decide (m ∈ fs)

/-- `applyModConfiguration` (binary-search.js lines 528-534): removes the
sentinel of every mod whose name is in `enabledMods` and writes the sentinel
of every other registered mod, regardless of the previous sentinel state. -/
def applyModConfiguration (allMods : List String) (enabledMods : Finset String)
    (fs : Finset String) : Finset String :=
  let modsToEnable := allMods.filter (fun m => decide (m ∈ enabledMods))
  let modsToDisable := allMods.filter (fun m => decide (m ∉ enabledMods))
  writeLovelyIgnore modsToDisable (removeLovelyIgnore modsToEnable fs)

/-- `displayModStatus` (binary-search.js lines 485-516), restricted to its
returned data: the list of enabled-and-unconfirmed mods and the list of
disabled, non-always-disabled mods, both in registry order.  Returns
`(disabledMods, enabledNonFineMods)`. -/
def displayModStatus (alwaysDisabled allMods : List String)
    (enabledMods fineMods : Finset String) : List String × List String :=
  let enabledNonFineMods :=
    allMods.filter (fun m => decide (m ∈ enabledMods) && decide (m ∉ fineMods))
  let disabledMods :=
    allMods.filter (fun m => decide (m ∉ enabledMods) && decide (m ∉ alwaysDisabled))
  (disabledMods, enabledNonFineMods)

/-- The pair of name sets the Bisection Controller threads through the loop. -/
structure ControllerSets where
  enabledMods : Finset String
  fineMods : Finset String
deriving DecidableEq

/-- Result of `handleGameRanFine`: the updated sets plus the content the
fire-and-forget `saveFineMods` call persists to `fine_mods.json`. -/
structure PassResult where
  sets : ControllerSets
  savedFineMods : Finset String
deriving DecidableEq

/-- Result of `handleReset`: the reset sets plus the filesystem state after
its immediate sentinel writes and removals. -/
structure ResetResult where
  sets : ControllerSets
  fs : Finset String
deriving DecidableEq

/-- `handleGameRanFine` (binary-search.js lines 550-580).  `shuffledDisabled`
is the shuffled copy of `disabledMods` (the shuffle result is a permutation
parameter).  Every enabled non-fine mod is promoted into `fineMods`; the
first `Math.ceil(n / 2)` entries of the shuffled disabled list are enabled
unless always-disabled; the updated fine set is persisted. -/
def handleGameRanFine (alwaysDisabled : List String)
    (enabledMods fineMods : Finset String)
    (enabledNonFineMods shuffledDisabled : List String) : PassResult :=
  let updatedFineMods := enabledNonFineMods.foldl (fun acc m => insert m acc) fineMods
  let updatedEnabledMods :=
    if 0 < shuffledDisabled.length then
      let halfCount := (shuffledDisabled.length + 1) / 2
      (shuffledDisabled.take halfCount).foldl
        (fun acc m => if m ∈ alwaysDisabled then acc else insert m acc)
        enabledMods
    else enabledMods
  { sets := { enabledMods := updatedEnabledMods, fineMods := updatedFineMods },
    savedFineMods := updatedFineMods }

/-- `handleGameHadProblems` (binary-search.js lines 594-614).
`shuffledEnabledNonFine` is the shuffled copy of `enabledNonFineMods`.  The
first `Math.ceil(n / 2)` entries are disabled unless always-fine; the fine
set is returned unchanged (as a fresh copy). -/
def handleGameHadProblems (alwaysFine : List String)
    (enabledMods fineMods : Finset String)
    (shuffledEnabledNonFine : List String) : ControllerSets :=
  let updatedEnabledMods :=
    if 0 < shuffledEnabledNonFine.length then
      let halfCount := (shuffledEnabledNonFine.length + 1) / 2
      (shuffledEnabledNonFine.take halfCount).foldl
        (fun acc m => if m ∈ alwaysFine then acc else acc.erase m)
        enabledMods
    else enabledMods
  { enabledMods := updatedEnabledMods, fineMods := fineMods }

/-- `handleReset` (binary-search.js lines 626-650): both sets become
`new Set(ALWAYS_FINE_MODS)` (the current, possibly checkpoint-merged list);
the sentinel is written for every mod outside the always-fine list (or in
the always-disabled list) and removed for every always-fine mod not
always-disabled. -/
def handleReset (alwaysFine alwaysDisabled allMods : List String)
    (fs : Finset String) : ResetResult :=
  let fineMods := alwaysFine.toFinset
  let enabledMods := alwaysFine.toFinset
  let modsToDisable :=
    allMods.filter (fun m => decide (m ∉ alwaysFine) || decide (m ∈ alwaysDisabled))
  let fs1 := writeLovelyIgnore modsToDisable fs
  let modsToEnable :=
    allMods.filter (fun m => decide (m ∈ alwaysFine) && decide (m ∉ alwaysDisabled))
  let fs2 := removeLovelyIgnore modsToEnable fs1
  { sets := { enabledMods := enabledMods, fineMods := fineMods }, fs := fs2 }

/-- `enforceModRules` (binary-search.js lines 758-774): after every
transition, force each always-fine mod (unless also always-disabled) into
the enabled set, then force every always-disabled mod out. -/
def enforceModRules (alwaysFine alwaysDisabled : List String)
    (enabledMods : Finset String) : Finset String :=
  let afterFine :=
    alwaysFine.foldl
      (fun acc m => if m ∈ alwaysDisabled then acc else insert m acc)
      enabledMods
  alwaysDisabled.foldl (fun acc m => acc.erase m) afterFine

/-- What the terminal check reports (binary-search.js lines 665-679):
either the isolated faulty mod's name, or that no problematic mod was
identified. -/
inductive SearchReport where
  | found (name : String)
  | noneFound
deriving DecidableEq

/-- `isSearchComplete` (binary-search.js lines 665-679): `some report` when
the search is complete (the loop then returns), `none` otherwise. -/
def isSearchComplete (enabledNonFineMods disabledMods : List String) :
    Option SearchReport :=
  if enabledNonFineMods.length ≤ 1 ∧ disabledMods.length = 0 then
    some
      (match enabledNonFineMods with
       | [m] => SearchReport.found m
       | _ => SearchReport.noneFound)
  else none

/-- `crashExitCode` (bench script line 41): the reserved exit code that
signals a crash. -/
def crashExitCode : Int := 42

/-- Behaviour of the controlling lua bot process in one trial: it either
exits with some code, or never exits (its `while true` loop keeps running
within the trial). -/
inductive BotOutcome where
  | exits (code : Int)
  | runsForever
deriving DecidableEq

/-- Whether writing the crash-test config file succeeds (bench lines
453-468): on failure the original config is restored and the trial returns
`false` (no crash) early. -/
inductive TrialSetup where
  | writeOk
  | writeFails
deriving DecidableEq

/-- `runCrashTest` (bench script lines 424-670), as a function of the bot
process's behaviour.  `some b` means the call returns with crash verdict
`b`; `none` means the call never returns.  The source `await`s the bot's
`exit` event before the `sleep(maximumRuntimeMilliseconds)` line, so when
the bot never exits nothing ever resolves the awaited promise: the
timeout sleep, the `luaProcess.kill()` and the `killall Balatro` on that
path are unreachable and the trial produces no verdict at all. -/
def runCrashTest (setup : TrialSetup) (bot : BotOutcome) : Option Bool :=
  match setup with
  | TrialSetup.writeFails => some false
  | TrialSetup.writeOk =>
    match bot with
    | BotOutcome.exits code => some (decide (code = crashExitCode))
    | BotOutcome.runsForever => none

/-- Character-list view of a JavaScript string (exact for the ASCII data
these scripts handle). -/
abbrev Str := List Char

/-- Coerce a Lean string literal to the character-list view. -/
def str (s : String) : Str := s.toList

/-- Length of the comment marker `--- ` (mods.js line 55). -/
def COMMENT_MARKER_LENGTH : Nat := 4

/-- Length of the default id-derived namespacing token (mods.js line 62). -/
def PREFIX_LENGTH : Nat := 4

/-- The three reserved ids the schema disallows (mods.js lines 70-74). -/
def RESERVED_MOD_IDS : List Str := [str "Steamodded", str "Lovely", str "Balatro"]

/-- JavaScript `String.prototype.trim`: strip leading and trailing
whitespace. -/
def trimStr (s : Str) : Str :=
  ((s.dropWhile Char.isWhitespace).reverse.dropWhile Char.isWhitespace).reverse

/-- JavaScript `String.prototype.split` with a single-character separator:
splits at every occurrence, keeping empty segments. -/
def splitOnChar (c : Char) : Str → List Str
  | [] => [[]]
  | x :: xs =>
    match splitOnChar c xs with
    | [] => [[]]
    | y :: ys => if x = c then [] :: y :: ys else (x :: y) :: ys

/-- One header line as `Object.fromEntries` sees it (mods.js lines 356-362):
`line.trim().slice(4).split(":")` with every segment trimmed; the entry is
the first segment as the key and, when present, the second segment as the
value — all later segments are dropped by `fromEntries`. -/
def parseHeaderLine (line : Str) : Str × Option Str :=
  let parts := (splitOnChar ':' ((trimStr line).drop COMMENT_MARKER_LENGTH)).map trimStr
  (parts.headD [], parts[1]?)

/-- Combined effect of `Object.fromEntries` (a later duplicate key wins)
and `shake(..., value === "")` (an empty-string value deletes the key) on
the parsed entry list: the value a destructured variable receives, `none`
meaning the destructuring default applies. -/
def headerLookup (entries : List (Str × Option Str)) (k : Str) : Option Str :=
  match entries.reverse.find? (fun e => e.1 == k) with
  | some (_, some v) => if v = [] then none else some v
  | _ => none

/-- `basename` from `@std/path` on a slash-separated path. -/
def basename (p : Str) : Str :=
  (splitOnChar '/' p).getLastD []

/-- Decimal digit-string to `Nat`; `none` for anything else. -/
def digitsToNat (s : Str) : Option Nat :=
  if s ≠ [] ∧ (∀ ch ∈ s, ch.isDigit = true) then
    some (s.foldl (fun n ch => 10 * n + (ch.toNat - 48)) 0)
  else none

/-- `Number(priorityString)` restricted to the integer strings the schema's
`v.integer()` check accepts; any non-integer string makes validation fail,
modelled as `none`. -/
def parsePriority (s : Str) : Option Int :=
  match s with
  | '-' :: rest => (digitsToNat rest).map (fun n => -(n : Int))
  | _ => (digitsToNat s).map (fun n => (n : Int))

/-- The parsed and validated mod record, with the fields the header parser
fills (mods.js `Mod`).  `pfx` stands for the source's namespacing-token
field (its source name is a Lean keyword). -/
structure HeaderMod where
  id : Str
  author : List Str
  description : Str
  displayName : Str
  mainFile : Str
  name : Str
  path : Str
  pfx : Str
  priority : Int
deriving DecidableEq

/-- `parseModHeader` (mods.js lines 325-431) applied to the header block the
leading regex extracted (the block of `--- ` comment lines at the start of
the file).  Splits the trimmed header into lines, parses each line into a
key/value entry, destructures with the source's defaults (`pfx` falls back
to the first `PREFIX_LENGTH` characters of the id lowercased, priority to
`"0"`, the display name to the name), derives `mainFile` from the path, and
validates the schema's requirements on the fields involved.  Any failure —
a missing required key, a reserved id, a bad priority, an empty author
entry, a `mainFile` without the script extension — yields `none`, matching
the caller that swallows every parse error. -/
def parseModHeader (header : Str) (path : Str) : Option HeaderMod :=
  let entries := (splitOnChar '\n' (trimStr header)).map parseHeaderLine
  match headerLookup entries (str "MOD_ID") with
  | none => none
  | some id =>
    let author :=
      ((headerLookup entries (str "MOD_AUTHOR")).map
        (fun a => (splitOnChar ',' ((a.drop 1).dropLast)).map trimStr)).getD []
    let pfx :=
      (headerLookup entries (str "PREFIX")).getD
        ((id.take PREFIX_LENGTH).map Char.toLower)
    let priorityString := (headerLookup entries (str "PRIORITY")).getD (str "0")
    match headerLookup entries (str "MOD_NAME"),
        headerLookup entries (str "MOD_DESCRIPTION"),
        parsePriority priorityString with
    | some name, some description, some priority =>
      let mainFile := basename path
      let displayName := (headerLookup entries (str "DISPLAY_NAME")).getD name
      if id ≠ [] ∧ id ∉ RESERVED_MOD_IDS ∧ (∀ a ∈ author, a ≠ []) ∧
          description ≠ [] ∧ (str ".lua") <:+ mainFile ∧ name ≠ [] ∧
          path ≠ [] ∧ pfx ≠ [] then
        some { id := id, author := author, description := description,
               displayName := displayName, mainFile := mainFile, name := name,
               path := path, pfx := pfx, priority := priority }
      else none
    | _, _, _ => none

/-- The header block of the C8 scenario. -/
def c8Header : Str :=
  str "--- STEAMODDED HEADER\n--- MOD_ID: Foo\n--- MOD_NAME: Foo Mod\n--- MOD_DESCRIPTION: desc\n--- MOD_AUTHOR: [Alice, Bob]"

/-- A plausible path for the C8 scenario's main file. -/
def c8Path : Str := str "Mods/Foo/main.lua"

/-- Membership after folding an insertion over a list of names. -/
theorem mem_foldl_insert (l : List String) (s : Finset String) (a : String) :
    a ∈ l.foldl (fun acc m => insert m acc) s ↔ a ∈ s ∨ a ∈ l := by
  induction l generalizing s with
  | nil => simp
  | cons m l ih =>
    rw [List.foldl_cons, ih]
    simp only [Finset.mem_insert, List.mem_cons]
    tauto

/-- Membership after folding a guarded insertion (skip names in `p`). -/
theorem mem_foldl_insertIf (p l : List String) (s : Finset String) (a : String) :
    a ∈ l.foldl (fun acc m => if m ∈ p then acc else insert m acc) s ↔
      a ∈ s ∨ (a ∈ l ∧ a ∉ p) := by
  induction l generalizing s with
  | nil => simp
  | cons m l ih =>
    rw [List.foldl_cons, ih]
    by_cases hm : m ∈ p
    · rw [if_pos hm]
      simp only [List.mem_cons]
      constructor
      · rintro (h | h)
        · exact Or.inl h
        · exact Or.inr ⟨Or.inr h.1, h.2⟩
      · rintro (h | ⟨rfl | h, hp⟩)
        · exact Or.inl h
        · exact absurd hm hp
        · exact Or.inr ⟨h, hp⟩
    · rw [if_neg hm]
      simp only [Finset.mem_insert, List.mem_cons]
      constructor
      · rintro (⟨rfl | h⟩ | h)
        · exact Or.inr ⟨Or.inl rfl, hm⟩
        · exact Or.inl h
        · exact Or.inr ⟨Or.inr h.1, h.2⟩
      · rintro (h | ⟨rfl | h, hp⟩)
        · exact Or.inl (Or.inr h)
        · exact Or.inl (Or.inl rfl)
        · exact Or.inr ⟨h, hp⟩

/-- Membership after folding an erasure over a list of names. -/
theorem mem_foldl_erase (l : List String) (s : Finset String) (a : String) :
    a ∈ l.foldl (fun acc m => acc.erase m) s ↔ a ∈ s ∧ a ∉ l := by
  induction l generalizing s with
  | nil => simp
  | cons m l ih =>
    rw [List.foldl_cons, ih]
    simp only [Finset.mem_erase, List.mem_cons]
    tauto

/-- Membership after folding a guarded erasure (skip names in `p`). -/
theorem mem_foldl_eraseIf (p l : List String) (s : Finset String) (a : String) :
    a ∈ l.foldl (fun acc m => if m ∈ p then acc else acc.erase m) s ↔
      a ∈ s ∧ (a ∉ l ∨ a ∈ p) := by
  induction l generalizing s with
  | nil => simp
  | cons m l ih =>
    rw [List.foldl_cons, ih]
    by_cases hm : m ∈ p
    · rw [if_pos hm]
      simp only [List.mem_cons]
      by_cases ha : a = m
      · subst ha; tauto
      · tauto
    · rw [if_neg hm]
      simp only [Finset.mem_erase, List.mem_cons]
      by_cases ha : a = m
      · subst ha; tauto
      · tauto

/-- The unguarded insertion fold is a union. -/
theorem foldl_insert_eq_union (l : List String) (s : Finset String) :
    l.foldl (fun acc m => insert m acc) s = s ∪ l.toFinset :=
  Finset.ext fun a => by
    rw [mem_foldl_insert, Finset.mem_union, List.mem_toFinset]

/-- When no listed name is in `p`, the guarded insertion fold is a union. -/
theorem foldl_insertIf_eq_union (p l : List String) (s : Finset String)
    (h : ∀ m ∈ l, m ∉ p) :
    l.foldl (fun acc m => if m ∈ p then acc else insert m acc) s = s ∪ l.toFinset :=
  Finset.ext fun a => by
    rw [mem_foldl_insertIf, Finset.mem_union, List.mem_toFinset]
    constructor
    · rintro (hs | hl)
      · exact Or.inl hs
      · exact Or.inr hl.1
    · rintro (hs | hl)
      · exact Or.inl hs
      · exact Or.inr ⟨hl, h a hl⟩

/-- When no listed name is in `p`, the guarded erasure fold is a set difference. -/
theorem foldl_eraseIf_eq_sdiff (p l : List String) (s : Finset String)
    (h : ∀ m ∈ l, m ∉ p) :
    l.foldl (fun acc m => if m ∈ p then acc else acc.erase m) s = s \ l.toFinset :=
  Finset.ext fun a => by
    rw [mem_foldl_eraseIf, Finset.mem_sdiff, List.mem_toFinset]
    constructor
    · rintro ⟨hs, hl | hp⟩
      · exact ⟨hs, hl⟩
      · exact ⟨hs, fun hal => h a hal hp⟩
    · rintro ⟨hs, hl⟩
      exact ⟨hs, Or.inl hl⟩

/-- Membership in the sentinel set after `writeLovelyIgnore`. -/
theorem mem_writeLovelyIgnore (l : List String) (fs : Finset String) (a : String) :
    a ∈ writeLovelyIgnore l fs ↔ a ∈ fs ∨ a ∈ l := by
  unfold writeLovelyIgnore
  exact mem_foldl_insert l fs a

/-- Membership in the sentinel set after `removeLovelyIgnore`: the swallowed
`NotFound` branch leaves the state unchanged, so the fold behaves as erasure. -/
theorem mem_removeLovelyIgnore (l : List String) (fs : Finset String) (a : String) :
    a ∈ removeLovelyIgnore l fs ↔ a ∈ fs ∧ a ∉ l := by
  induction l generalizing fs with
  | nil => simp [removeLovelyIgnore]
  | cons m l ih =>
    have estep : removeLovelyIgnore (m :: l) fs = removeLovelyIgnore l (fs.erase m) := by
      unfold removeLovelyIgnore removeSentinel
      rw [List.foldl_cons]
      by_cases hm : m ∈ fs
      · rw [if_pos hm]
      · rw [if_neg hm, Finset.erase_eq_of_not_mem hm]
    rw [estep, ih]
    simp only [Finset.mem_erase, List.mem_cons]
    tauto

/-- Membership in the enabled set after `enforceModRules`. -/
theorem mem_enforceModRules (alwaysFine alwaysDisabled : List String)
    (s : Finset String) (a : String) :
    a ∈ enforceModRules alwaysFine alwaysDisabled s ↔
      (a ∈ s ∨ (a ∈ alwaysFine ∧ a ∉ alwaysDisabled)) ∧ a ∉ alwaysDisabled := by
  unfold enforceModRules
  rw [mem_foldl_erase, mem_foldl_insertIf]

/-- C1 (counterexample): the invariant `pinnedFine ⊆ enabledMods` fails on a
reachable state.  With the checkpoint file containing `"Talisman"`, the
session-start merge makes `"Talisman"` pinned-fine, but the refactored
variant's `ALWAYS_DISABLED_MODS` also lists `"Talisman"`, and
`enforceModRules` (run after every transition, here after a Reset) deletes
every always-disabled name last — so the pinned-fine mod is not enabled. -/
theorem c1_pin_invariant_counterexample :
    "Talisman" ∈ mergeAlwaysFine ALWAYS_FINE_MODS_STATIC ["Talisman"] ∧
    "Talisman" ∉
      enforceModRules (mergeAlwaysFine ALWAYS_FINE_MODS_STATIC ["Talisman"])
        ALWAYS_DISABLED_MODS
        ((handleReset (mergeAlwaysFine ALWAYS_FINE_MODS_STATIC ["Talisman"])
            ALWAYS_DISABLED_MODS [] ∅).sets.enabledMods) := by
  decide

/-- C1 (amended): after any transition followed by `enforceModRules`, the
always-disabled list is disjoint from `enabledMods` unconditionally, and
every always-fine mod that is not also always-disabled is in `enabledMods`
(so `pinnedFine ⊆ enabledMods` holds whenever the two pin lists are
disjoint, which is the case for the static configurations of each variant
but can fail once the checkpoint merge is taken into account). -/
theorem c1_pin_invariant_amended (alwaysFine alwaysDisabled : List String)
    (enabledMods : Finset String) :
    (∀ m ∈ alwaysDisabled, m ∉ enforceModRules alwaysFine alwaysDisabled enabledMods) ∧
    (∀ m ∈ alwaysFine, m ∉ alwaysDisabled →
      m ∈ enforceModRules alwaysFine alwaysDisabled enabledMods) := by
  constructor
  · intro m hm hmem
    rw [mem_enforceModRules] at hmem
    exact hmem.2 hm
  · intro m hmA hmD
    rw [mem_enforceModRules]
    exact ⟨Or.inr ⟨hmA, hmD⟩, hmD⟩

/-- C1 (witness): the amended invariant at the first variant's static
configuration. -/
theorem c1_pin_invariant_witness :
    "Betmma Spells" ∉
      enforceModRules ALWAYS_FINE_MODS_V1 ALWAYS_DISABLED_MODS_V1 {"Betmma Spells"} ∧
    "Talisman" ∈
      enforceModRules ALWAYS_FINE_MODS_V1 ALWAYS_DISABLED_MODS_V1 {"Betmma Spells"} :=
  ⟨(c1_pin_invariant_amended ALWAYS_FINE_MODS_V1 ALWAYS_DISABLED_MODS_V1
      {"Betmma Spells"}).1 "Betmma Spells" (by decide),
   (c1_pin_invariant_amended ALWAYS_FINE_MODS_V1 ALWAYS_DISABLED_MODS_V1
      {"Betmma Spells"}).2 "Talisman" (by decide) (by decide)⟩

/-- C2: on a Fail verdict with `n > 0` enabled-and-unconfirmed mods (given
as an arbitrary shuffle of that list, whose names are distinct, enabled,
and — as in every reachable state, where the always-fine list is contained
in `fineMods` — not always-fine), `handleGameHadProblems` returns the fine
set unchanged and removes from `enabledMods` exactly the first
`ceil(n / 2)` names of the shuffle, so exactly `ceil(n / 2)` mods are
disabled. -/
theorem c2_fail_transition (alwaysFine : List String)
    (enabledMods fineMods : Finset String) (shuffled : List String)
    (hlen : 0 < shuffled.length) (hnodup : shuffled.Nodup)
    (hsub : ∀ m ∈ shuffled, m ∈ enabledMods)
    (hfine : ∀ m ∈ shuffled, m ∉ alwaysFine) :
    (handleGameHadProblems alwaysFine enabledMods fineMods shuffled).fineMods
      = fineMods ∧
    (handleGameHadProblems alwaysFine enabledMods fineMods shuffled).enabledMods
      = enabledMods \ (shuffled.take ((shuffled.length + 1) / 2)).toFinset ∧
    enabledMods.card
      = (handleGameHadProblems alwaysFine enabledMods fineMods shuffled).enabledMods.card
        + (shuffled.length + 1) / 2 := by
  have eenb : (handleGameHadProblems alwaysFine enabledMods fineMods shuffled).enabledMods
      = if 0 < shuffled.length then
          (shuffled.take ((shuffled.length + 1) / 2)).foldl
            (fun acc m => if m ∈ alwaysFine then acc else acc.erase m) enabledMods
        else enabledMods := rfl
  have hhalf : (shuffled.length + 1) / 2 ≤ shuffled.length := by omega
  have htfine : ∀ m ∈ shuffled.take ((shuffled.length + 1) / 2), m ∉ alwaysFine :=
    fun m hm => hfine m (List.take_subset _ _ hm)
  have henb : (handleGameHadProblems alwaysFine enabledMods fineMods shuffled).enabledMods
      = enabledMods \ (shuffled.take ((shuffled.length + 1) / 2)).toFinset := by
    rw [eenb, if_pos hlen, foldl_eraseIf_eq_sdiff _ _ _ htfine]
  refine ⟨rfl, henb, ?_⟩
  have htnodup : (shuffled.take ((shuffled.length + 1) / 2)).Nodup :=
    (List.take_sublist _ _).nodup hnodup
  have hcardt : (shuffled.take ((shuffled.length + 1) / 2)).toFinset.card
      = (shuffled.length + 1) / 2 := by
    rw [List.toFinset_card_of_nodup htnodup, List.length_take]
    omega
  have htsub : (shuffled.take ((shuffled.length + 1) / 2)).toFinset ⊆ enabledMods :=
    fun a ha => hsub a (List.take_subset _ _ (List.mem_toFinset.mp ha))
  have hle := Finset.card_le_card htsub
  rw [henb, Finset.card_sdiff htsub, hcardt]
  omega

/-- C2 (witness): a Fail on two unconfirmed mods disables exactly one. -/
theorem c2_fail_transition_witness :
    (handleGameHadProblems ["a"] {"a", "b", "c"} {"a"} ["b", "c"]).fineMods = {"a"} ∧
    ({"a", "b", "c"} : Finset String).card
      = (handleGameHadProblems ["a"] {"a", "b", "c"} {"a"} ["b", "c"]).enabledMods.card
        + 1 := by
  have h := c2_fail_transition ["a"] {"a", "b", "c"} {"a"} ["b", "c"]
    (by decide) (by decide) (by decide) (by decide)
  exact ⟨h.1, h.2.2⟩

/-- C3: on a Pass verdict, `handleGameRanFine` unconditionally promotes
every enabled non-fine mod into `fineMods` and persists exactly that
updated set to the checkpoint; and, when the shuffled disabled list
(distinct names, none currently enabled, none always-disabled as
`displayModStatus` guarantees) is non-empty, it enables exactly its first
`ceil(d / 2)` names, while an empty disabled list leaves `enabledMods`
unchanged. -/
theorem c3_pass_transition (alwaysDisabled : List String)
    (enabledMods fineMods : Finset String)
    (enabledNonFineMods shuffledDisabled : List String)
    (hnodup : shuffledDisabled.Nodup)
    (hdis : ∀ m ∈ shuffledDisabled, m ∉ enabledMods)
    (hnp : ∀ m ∈ shuffledDisabled, m ∉ alwaysDisabled) :
    (handleGameRanFine alwaysDisabled enabledMods fineMods enabledNonFineMods
        shuffledDisabled).sets.fineMods
      = fineMods ∪ enabledNonFineMods.toFinset ∧
    (handleGameRanFine alwaysDisabled enabledMods fineMods enabledNonFineMods
        shuffledDisabled).savedFineMods
      = fineMods ∪ enabledNonFineMods.toFinset ∧
    (0 < shuffledDisabled.length →
      (handleGameRanFine alwaysDisabled enabledMods fineMods enabledNonFineMods
          shuffledDisabled).sets.enabledMods
        = enabledMods
          ∪ (shuffledDisabled.take ((shuffledDisabled.length + 1) / 2)).toFinset) ∧
    (0 < shuffledDisabled.length →
      (handleGameRanFine alwaysDisabled enabledMods fineMods enabledNonFineMods
          shuffledDisabled).sets.enabledMods.card
        = enabledMods.card + (shuffledDisabled.length + 1) / 2) ∧
    (shuffledDisabled.length = 0 →
      (handleGameRanFine alwaysDisabled enabledMods fineMods enabledNonFineMods
          shuffledDisabled).sets.enabledMods = enabledMods) := by
  have efine : (handleGameRanFine alwaysDisabled enabledMods fineMods enabledNonFineMods
      shuffledDisabled).sets.fineMods
      = enabledNonFineMods.foldl (fun acc m => insert m acc) fineMods := rfl
  have esaved : (handleGameRanFine alwaysDisabled enabledMods fineMods enabledNonFineMods
      shuffledDisabled).savedFineMods
      = enabledNonFineMods.foldl (fun acc m => insert m acc) fineMods := rfl
  have eenb : (handleGameRanFine alwaysDisabled enabledMods fineMods enabledNonFineMods
      shuffledDisabled).sets.enabledMods
      = if 0 < shuffledDisabled.length then
          (shuffledDisabled.take ((shuffledDisabled.length + 1) / 2)).foldl
            (fun acc m => if m ∈ alwaysDisabled then acc else insert m acc) enabledMods
        else enabledMods := rfl
  have htnp : ∀ m ∈ shuffledDisabled.take ((shuffledDisabled.length + 1) / 2),
      m ∉ alwaysDisabled := fun m hm => hnp m (List.take_subset _ _ hm)
  have henb : 0 < shuffledDisabled.length →
      (handleGameRanFine alwaysDisabled enabledMods fineMods enabledNonFineMods
        shuffledDisabled).sets.enabledMods
      = enabledMods
        ∪ (shuffledDisabled.take ((shuffledDisabled.length + 1) / 2)).toFinset := by
    intro hlen
    rw [eenb, if_pos hlen, foldl_insertIf_eq_union _ _ _ htnp]
  refine ⟨?_, ?_, henb, ?_, ?_⟩
  · rw [efine, foldl_insert_eq_union]
  · rw [esaved, foldl_insert_eq_union]
  · intro hlen
    have htnodup : (shuffledDisabled.take ((shuffledDisabled.length + 1) / 2)).Nodup :=
      (List.take_sublist _ _).nodup hnodup
    have hcardt : (shuffledDisabled.take ((shuffledDisabled.length + 1) / 2)).toFinset.card
        = (shuffledDisabled.length + 1) / 2 := by
      rw [List.toFinset_card_of_nodup htnodup, List.length_take]
      omega
    have hdisj : Disjoint enabledMods
        (shuffledDisabled.take ((shuffledDisabled.length + 1) / 2)).toFinset := by
      rw [Finset.disjoint_right]
      intro a ha
      exact hdis a (List.take_subset _ _ (List.mem_toFinset.mp ha))
    rw [henb hlen, Finset.card_union_of_disjoint hdisj, hcardt]
  · intro hlen
    rw [eenb, if_neg (by omega)]

/-- C3 (witness): a Pass with one unconfirmed mod and two disabled mods
confirms the mod, persists the update, and enables exactly one mod; a Pass
with no disabled mods still promotes and persists, leaving `enabledMods`
unchanged. -/
theorem c3_pass_transition_witness :
    (handleGameRanFine ["z"] {"a", "b"} {"a"} ["b"] ["d", "e"]).savedFineMods
      = {"a"} ∪ (["b"] : List String).toFinset ∧
    (handleGameRanFine ["z"] {"a", "b"} {"a"} ["b"] ["d", "e"]).sets.enabledMods.card
      = ({"a", "b"} : Finset String).card + 1 ∧
    (handleGameRanFine ["z"] {"a", "b"} {"a"} ["b"] []).savedFineMods
      = {"a"} ∪ (["b"] : List String).toFinset ∧
    (handleGameRanFine ["z"] {"a", "b"} {"a"} ["b"] []).sets.enabledMods
      = {"a", "b"} := by
  have h := c3_pass_transition ["z"] {"a", "b"} {"a"} ["b"] ["d", "e"]
    (by decide) (by decide) (by decide)
  have h0 := c3_pass_transition ["z"] {"a", "b"} {"a"} ["b"] []
    (by decide) (by decide) (by decide)
  exact ⟨h.2.1, h.2.2.2.1 (by decide), h0.2.1, h0.2.2.2.2 (by decide)⟩

/-- C4: `isSearchComplete` reports completion exactly when at most one
enabled-and-unconfirmed mod remains and the non-pinned disabled list is
empty; with exactly one such mod it reports that mod's name as the isolated
fault, with zero it reports that no problematic mod was identified. -/
theorem c4_search_complete (enabledNonFineMods disabledMods : List String) :
    ((isSearchComplete enabledNonFineMods disabledMods).isSome = true ↔
      enabledNonFineMods.length ≤ 1 ∧ disabledMods = []) ∧
    (∀ m, enabledNonFineMods = [m] → disabledMods = [] →
      isSearchComplete enabledNonFineMods disabledMods
        = some (SearchReport.found m)) ∧
    (enabledNonFineMods = [] → disabledMods = [] →
      isSearchComplete enabledNonFineMods disabledMods
        = some SearchReport.noneFound) := by
  refine ⟨?_, ?_, ?_⟩
  · unfold isSearchComplete
    by_cases h : enabledNonFineMods.length ≤ 1 ∧ disabledMods.length = 0
    · rw [if_pos h]
      simp [h.1, List.length_eq_zero.mp h.2]
    · rw [if_neg h]
      simp only [Option.isSome_none, Bool.false_eq_true, false_iff]
      rintro ⟨h1, rfl⟩
      exact h ⟨h1, rfl⟩
  · rintro m rfl rfl
    rfl
  · rintro rfl rfl
    rfl

/-- C4 (witness): the terminal report with exactly one remaining mod. -/
theorem c4_search_complete_witness :
    isSearchComplete ["culprit"] [] = some (SearchReport.found "culprit") :=
  (c4_search_complete ["culprit"] []).2.1 "culprit" rfl rfl

/-- C5 (counterexample): the claim says the sets reset to the pinned-fine
set *as statically configured*, but `handleReset` uses the current
`ALWAYS_FINE_MODS`, which the session start merged with the checkpoint
file (line 790): with checkpoint `["Talisman"]` the reset fine set strictly
contains the static list. -/
theorem c5_reset_counterexample :
    (handleReset (mergeAlwaysFine ALWAYS_FINE_MODS_STATIC ["Talisman"])
        ALWAYS_DISABLED_MODS [] ∅).sets.fineMods
      ≠ ALWAYS_FINE_MODS_STATIC.toFinset := by
  decide

/-- C5 (amended): on Reset, `fineMods` and `enabledMods` both become exactly
the *effective* always-fine set (the static list as merged with the loaded
checkpoint at session start), and every registered mod outside that set has
its sentinel file written before the next trial. -/
theorem c5_reset_amended (alwaysFine alwaysDisabled allMods : List String)
    (fs : Finset String) :
    (handleReset alwaysFine alwaysDisabled allMods fs).sets.fineMods
      = alwaysFine.toFinset ∧
    (handleReset alwaysFine alwaysDisabled allMods fs).sets.enabledMods
      = alwaysFine.toFinset ∧
    (∀ m ∈ allMods, m ∉ alwaysFine →
      isModDisabled m (handleReset alwaysFine alwaysDisabled allMods fs).fs = true) := by
  have efs : (handleReset alwaysFine alwaysDisabled allMods fs).fs
      = removeLovelyIgnore
          (allMods.filter
            (fun m => decide (m ∈ alwaysFine) && decide (m ∉ alwaysDisabled)))
          (writeLovelyIgnore
            (allMods.filter
              (fun m => decide (m ∉ alwaysFine) || decide (m ∈ alwaysDisabled)))
            fs) := rfl
  refine ⟨rfl, rfl, ?_⟩
  intro m hm hnf
  rw [efs, isModDisabled, decide_eq_true_eq, mem_removeLovelyIgnore,
    mem_writeLovelyIgnore]
  constructor
  · exact Or.inr (List.mem_filter.mpr ⟨hm, by simp [hnf]⟩)
  · intro hmem
    have := (List.mem_filter.mp hmem).2
    simp at this
    exact hnf this.1

/-- C5 (witness): the amended reset behaviour at a concrete configuration. -/
theorem c5_reset_witness :
    (handleReset ["f"] [] ["f", "x"] ∅).sets.fineMods
      = (["f"] : List String).toFinset ∧
    isModDisabled "x" (handleReset ["f"] [] ["f", "x"] ∅).fs = true :=
  ⟨(c5_reset_amended ["f"] [] ["f", "x"] ∅).1,
   (c5_reset_amended ["f"] [] ["f", "x"] ∅).2.2 "x" (by decide) (by decide)⟩

/-- C6: disabling a set of mods makes each of them read as disabled,
enabling a set of mods makes each of them read as enabled, removing an
absent sentinel is not an error (the state is returned unchanged), and both
operations are idempotent. -/
theorem c6_toggle_roundtrip (modNames : List String) (fs : Finset String) :
    (∀ m ∈ modNames, isModDisabled m (writeLovelyIgnore modNames fs) = true) ∧
    (∀ m ∈ modNames, isModDisabled m (removeLovelyIgnore modNames fs) = false) ∧
    (∀ m, m ∉ fs → removeLovelyIgnore [m] fs = fs) ∧
    writeLovelyIgnore modNames (writeLovelyIgnore modNames fs)
      = writeLovelyIgnore modNames fs ∧
    removeLovelyIgnore modNames (removeLovelyIgnore modNames fs)
      = removeLovelyIgnore modNames fs := by
  refine ⟨?_, ?_, ?_, ?_, ?_⟩
  · intro m hm
    rw [isModDisabled, decide_eq_true_eq, mem_writeLovelyIgnore]
    exact Or.inr hm
  · intro m hm
    rw [isModDisabled, decide_eq_false_iff_not, mem_removeLovelyIgnore]
    rintro ⟨-, hnot⟩
    exact hnot hm
  · intro m hm
    unfold removeLovelyIgnore removeSentinel
    rw [List.foldl_cons, if_neg hm, List.foldl_nil]
  · refine Finset.ext fun a => ?_
    simp only [mem_writeLovelyIgnore]
    tauto
  · refine Finset.ext fun a => ?_
    simp only [mem_removeLovelyIgnore]
    tauto

/-- C6 (witness): the round-trip at a concrete mod set and filesystem
state. -/
theorem c6_toggle_roundtrip_witness :
    isModDisabled "m1" (writeLovelyIgnore ["m1", "m2"] {"m1", "z"}) = true ∧
    isModDisabled "m2" (removeLovelyIgnore ["m1", "m2"] {"m1", "z"}) = false ∧
    removeLovelyIgnore ["q"] {"m1", "z"} = {"m1", "z"} := by
  have h := c6_toggle_roundtrip ["m1", "m2"] ({"m1", "z"} : Finset String)
  exact ⟨h.1 "m1" (by decide), h.2.1 "m2" (by decide), h.2.2.1 "q" (by decide)⟩

/-- C7: when the controlling bot process exits, `runCrashTest` reports a
crash (Fail) exactly on the reserved exit code 42, and any other exit code
or the config-write failure path reports no crash (Pass); but when the bot
process never exits, the call produces no verdict at all — the source
`await`s the exit event before its timeout sleep, so the claimed
Pass-by-timeout (with forced termination of the game) never happens. -/
theorem c7_crash_oracle :
    (∀ code : Int, runCrashTest TrialSetup.writeOk (BotOutcome.exits code)
      = some (decide (code = crashExitCode))) ∧
    runCrashTest TrialSetup.writeFails BotOutcome.runsForever = some false ∧
    runCrashTest TrialSetup.writeOk BotOutcome.runsForever = none :=
  ⟨fun _ => rfl, rfl, rfl⟩

/-- `splitOnChar` never returns the empty list. -/
theorem splitOnChar_ne_nil (c : Char) (s : Str) : splitOnChar c s ≠ [] := by
  cases s with
  | nil => simp [splitOnChar]
  | cons x xs =>
    have e : splitOnChar c (x :: xs)
        = match splitOnChar c xs with
          | [] => [[]]
          | y :: ys => if x = c then [] :: y :: ys else (x :: y) :: ys := rfl
    rw [e]
    rcases splitOnChar c xs with _ | ⟨y, ys⟩
    · simp
    · by_cases hx : x = c <;> simp [hx]

/-- Splitting a string with no occurrence of the separator yields the whole
string as the single segment. -/
theorem splitOnChar_no_sep (c : Char) (s : Str) (h : c ∉ s) :
    splitOnChar c s = [s] := by
  induction s with
  | nil => rfl
  | cons x xs ih =>
    have hx : x ≠ c := fun e => h (e ▸ List.mem_cons_self x xs)
    have hxs : c ∉ xs := fun hm => h (List.mem_cons_of_mem _ hm)
    have e : splitOnChar c (x :: xs)
        = match splitOnChar c xs with
          | [] => [[]]
          | y :: ys => if x = c then [] :: y :: ys else (x :: y) :: ys := rfl
    rw [e, ih hxs]
    simp [hx]

/-- Splitting at the first separator occurrence: the separator-free part
before it is the first segment and the rest is split recursively. -/
theorem splitOnChar_append (c : Char) (a b : Str) (ha : c ∉ a) :
    splitOnChar c (a ++ (c :: b)) = a :: splitOnChar c b := by
  induction a with
  | nil =>
    have e : splitOnChar c (c :: b)
        = match splitOnChar c b with
          | [] => [[]]
          | y :: ys => if c = c then [] :: y :: ys else (c :: y) :: ys := rfl
    show splitOnChar c (c :: b) = [] :: splitOnChar c b
    rcases hsb : splitOnChar c b with _ | ⟨y, ys⟩
    · exact absurd hsb (splitOnChar_ne_nil c b)
    · rw [e, hsb]
      simp
  | cons x a ih =>
    have hx : x ≠ c := fun e => ha (e ▸ List.mem_cons_self x a)
    have ha' : c ∉ a := fun hm => ha (List.mem_cons_of_mem _ hm)
    have e : splitOnChar c (x :: (a ++ (c :: b)))
        = match splitOnChar c (a ++ (c :: b)) with
          | [] => [[]]
          | y :: ys => if x = c then [] :: y :: ys else (x :: y) :: ys := rfl
    show splitOnChar c (x :: (a ++ (c :: b))) = (x :: a) :: splitOnChar c b
    rw [e, ih ha']
    simp [hx]

/-- C10: a header line whose value contains a further colon is truncated at
that colon: `line.trim().slice(4).split(":")` splits at every colon and
`Object.fromEntries` keeps only the first two segments, so the entry for
`--- KEY: v1: v2` has value `trim(v1)` — the tail `v2` is dropped. -/
theorem c10_colon_truncation (k v1 v2 : Str) (hk : ':' ∉ k) (hv1 : ':' ∉ v1)
    (htrim : trimStr (str "--- " ++ (k ++ (':' :: (v1 ++ (':' :: v2)))))
      = str "--- " ++ (k ++ (':' :: (v1 ++ (':' :: v2))))) :
    parseHeaderLine (str "--- " ++ (k ++ (':' :: (v1 ++ (':' :: v2)))))
      = (trimStr k, some (trimStr v1)) := by
  unfold parseHeaderLine
  rw [htrim]
  have hdrop : (str "--- " ++ (k ++ (':' :: (v1 ++ (':' :: v2))))).drop
      COMMENT_MARKER_LENGTH = k ++ (':' :: (v1 ++ (':' :: v2))) := rfl
  rw [hdrop, splitOnChar_append _ _ _ hk, splitOnChar_append _ _ _ hv1]
  simp

/-- C10 (witness): `--- MOD_DESCRIPTION: a: b` parses to the entry
`("MOD_DESCRIPTION", "a")`, silently dropping `": b"`. -/
theorem c10_colon_truncation_witness :
    parseHeaderLine
        (str "--- " ++ (str "MOD_DESCRIPTION" ++ (':' :: (str " a" ++ (':' :: str " b")))))
      = (trimStr (str "MOD_DESCRIPTION"), some (trimStr (str " a"))) :=
  c10_colon_truncation (str "MOD_DESCRIPTION") (str " a") (str " b")
    (by decide) (by decide) (by decide)

/-- C8: parsing the scenario header block (`MOD_ID: Foo`, `MOD_NAME: Foo
Mod`, `MOD_DESCRIPTION: desc`, `MOD_AUTHOR: [Alice, Bob]`, no `PREFIX`
line) succeeds and yields a mod whose namespacing token is `"foo"` (the
first 4 characters of the id, lowercased) and whose author list is
`["Alice", "Bob"]` (first and last character stripped, split on commas,
entries trimmed). -/
theorem c8_header_scenario :
    (parseModHeader c8Header c8Path).map HeaderMod.pfx = some (str "foo") ∧
    (parseModHeader c8Header c8Path).map HeaderMod.author
      = some [str "Alice", str "Bob"] := by
  decide

/-- C9: after `applyModConfiguration`, a registered mod's sentinel file
exists exactly when its name is not in `enabledMods`, whatever the previous
sentinel state was — the function rewrites the sentinel state of every
registered mod, not only of mods whose state changed. -/
theorem c9_apply_configuration (allMods : List String)
    (enabledMods fs : Finset String) (m : String) (hm : m ∈ allMods) :
    isModDisabled m (applyModConfiguration allMods enabledMods fs) = true ↔
      m ∉ enabledMods := by
  have happ : applyModConfiguration allMods enabledMods fs
      = writeLovelyIgnore (allMods.filter (fun m => decide (m ∉ enabledMods)))
          (removeLovelyIgnore (allMods.filter (fun m => decide (m ∈ enabledMods)))
            fs) := rfl
  rw [happ, isModDisabled, decide_eq_true_eq, mem_writeLovelyIgnore,
    mem_removeLovelyIgnore]
  constructor
  · rintro (⟨-, hnotin⟩ | hin)
    · intro hmem
      exact hnotin (List.mem_filter.mpr ⟨hm, by simpa using hmem⟩)
    · have := (List.mem_filter.mp hin).2
      simpa using this
  · intro hnot
    exact Or.inr (List.mem_filter.mpr ⟨hm, by simpa using hnot⟩)

/-- C9 (witness): a registered mod outside `enabledMods` reads as disabled
after applying the configuration, even starting from a filesystem state
where its sentinel was absent. -/
theorem c9_apply_configuration_witness :
    isModDisabled "b" (applyModConfiguration ["a", "b"] {"a"} ∅) = true ↔
      "b" ∉ ({"a"} : Finset String) :=
  c9_apply_configuration ["a", "b"] {"a"} ∅ "b" (by decide)
